import Mathlib

/-!
Shallow embedding of the go-moi-identifiers repository (MOI Protocol 32-byte
identifiers). Bytes are modelled as `Nat` values (< 256 where it matters,
stated as explicit hypotheses), byte arrays as `List Nat`, Go `(value, error)`
returns as `List Nat × Option IdErr`, and Go panics as `Option` results
(`none` = panic). Each definition is translated from the named Go function.
-/

set_option autoImplicit false

namespace GoMoiIdentifiers

/-- Error taxonomy of the package (common.go `ErrMissingHexPrefix`,
`ErrInvalidLength`, `ErrUnsupportedFlag`, `ErrUnsupportedVersion`,
`ErrUnsupportedKind`, plus the inline `errors.New` values of the per-kind
validators and byte-constructors, keyed by their message). Go's
`fmt.Errorf` wrapping preserves the wrapped error, so wrapped tag errors
keep their base constructor. -/
inductive IdErr where
  | unsupportedKind
  | unsupportedVersion
  | wrongKind
  | malformedFlags
  | unsupportedFlag
  | missingHexMark
  | invalidLength
  | invalidIdLength
  | hexDecodeErr
deriving DecidableEq

/-- identifier.go: `KindParticipant IdentifierKind = iota` (= 0). -/
def KindParticipant : Nat := 0

/-- identifier.go: `KindAsset` (= 1). -/
def KindAsset : Nat := 1

/-- identifier.go: `KindLogic` (= 2). -/
def KindLogic : Nat := 2

/-- identifier.go: `maxIdentifierKind = KindLogic`. -/
def maxIdentifierKind : Nat := KindLogic

/-- identifier.go `IdentifierKind.Supports`: the supported-version array is
`[...]uint8 — 0, 0, 0`; a kind at or beyond its length supports nothing, and
otherwise the version must not exceed the array entry. -/
def IdentifierKind.Supports (kind version : Nat) : Bool :=
  if kind ≥ 3 then false
  else decide (version ≤ ([0, 0, 0] : List Nat).getD kind 0)

/-- identifier.go `IdentifierTag.Kind`: the upper 4 bits of the tag byte. -/
def IdentifierTag.Kind (tag : Nat) : Nat := tag / 16

/-- identifier.go `IdentifierTag.Version`: the lower 4 bits of the tag byte. -/
def IdentifierTag.Version (tag : Nat) : Nat := tag % 16

/-- identifier.go: `TagParticipantV0 = (KindParticipant << 4) | 0` = 0x00. -/
def TagParticipantV0 : Nat := 0x00

/-- identifier.go: `TagAssetV0 = (KindAsset << 4) | 0` = 0x10. -/
def TagAssetV0 : Nat := 0x10

/-- identifier.go: `TagLogicV0 = (KindLogic << 4) | 0` = 0x20. -/
def TagLogicV0 : Nat := 0x20

/-- identifier.go `IdentifierTag.Validate`: `ErrUnsupportedKind` when the kind
nibble exceeds `maxIdentifierKind`, `ErrUnsupportedVersion` when the kind does
not support the version nibble, success otherwise. `none` = valid. -/
def IdentifierTag.Validate (tag : Nat) : Option IdErr :=
  if IdentifierTag.Kind tag > maxIdentifierKind then some .unsupportedKind
  else if ¬ IdentifierKind.Supports (IdentifierTag.Kind tag) (IdentifierTag.Version tag) then
    some .unsupportedVersion
  else none

/-- flags source file `flagMasks`: the map of disallowed-flag-bit masks, with
exactly three entries — Participant v0 ↦ 0b01111111, Logic v0 ↦ 0b01111000,
Asset v0 ↦ 0b01111100. `none` models a missing map key. -/
def flagMasks (tag : Nat) : Option Nat :=
  if tag = TagParticipantV0 then some 0b01111111
  else if tag = TagLogicV0 then some 0b01111000
  else if tag = TagAssetV0 then some 0b01111100
  else none

/-- Go two-valued map access `flagMasks[tag]` used by the per-kind validators:
a missing key yields the zero value 0. -/
def flagMasksGetD (tag : Nat) : Nat := (flagMasks tag).getD 0

/-- identifier.go `IdentifierTag.FlagMask`: looks the tag up in `flagMasks`
and panics when the key is absent. The panic is modelled as `none`. -/
def IdentifierTag.FlagMask (tag : Nat) : Option Nat := flagMasks tag

/-- flags source file `Flag`: a bit index together with the support table
mapping an identifier kind to the minimum version supporting the flag.
The Go `map[IdentifierKind]uint8` is modelled as `Nat → Option Nat`. -/
structure Flag where
  index : Nat
  support : Nat → Option Nat

/-- flags source file `Flag.Supports`: look the tag's kind up in the support
table; absent kind → false; otherwise the tag's version must be at least the
table's minimum version. -/
def Flag.Supports (flag : Flag) (tag : Nat) : Bool :=
  match flag.support (IdentifierTag.Kind tag) with
  | none => false
  | some version => decide (IdentifierTag.Version tag ≥ version)

/-- flags source file `makeFlag`: a flag supported by a single kind. The Go
function asserts `index ≤ 7` and `version ≤ 7`; every call site in the
package satisfies both, so the assertion is not modelled. -/
def makeFlag (kind index version : Nat) : Flag :=
  ⟨index, fun k => if k = kind then some version else none⟩

/-- flags source file `Systemic`: bit 7, supported by all three kinds from
version 0. -/
def Systemic : Flag :=
  ⟨7, fun k => if k = KindParticipant ∨ k = KindAsset ∨ k = KindLogic then some 0 else none⟩

/-- flags source file `AssetStateful = makeFlag(KindAsset, 0, 0)`. -/
def AssetStateful : Flag := makeFlag KindAsset 0 0

/-- flags source file `AssetLogical = makeFlag(KindAsset, 1, 0)`. -/
def AssetLogical : Flag := makeFlag KindAsset 1 0

/-- flags source file `LogicIntrinsic = makeFlag(KindLogic, 0, 0)`. -/
def LogicIntrinsic : Flag := makeFlag KindLogic 0 0

/-- flags source file `LogicExtrinsic = makeFlag(KindLogic, 1, 0)`. -/
def LogicExtrinsic : Flag := makeFlag KindLogic 1 0

/-- flags source file `LogicAuxiliary = makeFlag(KindLogic, 2, 0)`. -/
def LogicAuxiliary : Flag := makeFlag KindLogic 2 0

/-- The complete catalogue of `Flag` values the package defines. `Flag`
fields are unexported in Go, so these six are the only `Flag` values any
caller can pass to a generator or to variant derivation. -/
def catalogFlags : List Flag :=
  [Systemic, AssetStateful, AssetLogical, LogicIntrinsic, LogicExtrinsic, LogicAuxiliary]

/-- flags source file `getFlag`: `value & (1 << index) != 0`, where the shift
is performed at byte width, so the mask is `(1 <<< index) % 256` (zero for
any index above 7 — Go byte shifts discard bits beyond the width). -/
def getFlag (value index : Nat) : Bool :=
  decide (value &&& ((1 <<< index) % 256) ≠ 0)

/-- flags source file `setFlag`: `value |= 1 << index` when setting and
`value &^= 1 << index` (AND-NOT, i.e. AND with the byte complement) when
unsetting, with the shift again performed at byte width. -/
def setFlag (value index : Nat) (flag : Bool) : Nat :=
  if flag then value ||| ((1 <<< index) % 256)
  else value &&& (255 ^^^ ((1 <<< index) % 256))

/-- common.go `isBitSet`: panics (modelled as `none`) when `loc > 7`,
otherwise tests `(value >> loc) & 1`. -/
def isBitSet (value loc : Nat) : Option Bool :=
  if loc > 7 then none
  else some (decide ((value >>> loc) &&& 1 ≠ 0))

/-- common.go `Nil`: the all-zero 32-byte value. -/
def Nil32 : List Nat := List.replicate 32 0

/-- identifier.go `Identifier.Tag`: the first byte. -/
def Identifier.Tag (id : List Nat) : Nat := id.getD 0 0

/-- identifier.go `Identifier.Variant`: bytes 28–31 read as a big-endian
32-bit integer. -/
def Identifier.Variant (id : List Nat) : Nat :=
  id.getD 28 0 * 2 ^ 24 + id.getD 29 0 * 2 ^ 16 + id.getD 30 0 * 2 ^ 8 + id.getD 31 0

/-- identifier.go `Identifier.IsVariant` exactly as implemented at
identifier.go lines 134–138: it returns whether every one of the four
variant bytes is zero (the negation present in the kind-specific types is
absent here). -/
def Identifier.IsVariant (id : List Nat) : Bool :=
  (id.getD 28 0 == 0) && (id.getD 29 0 == 0) && (id.getD 30 0 == 0) && (id.getD 31 0 == 0)

/-- participant.go `ParticipantID.Variant`: bytes 28–31, big-endian. -/
def ParticipantID.Variant (id : List Nat) : Nat :=
  id.getD 28 0 * 2 ^ 24 + id.getD 29 0 * 2 ^ 16 + id.getD 30 0 * 2 ^ 8 + id.getD 31 0

/-- participant.go `ParticipantID.IsVariant`: true when not all four variant
bytes are zero. -/
def ParticipantID.IsVariant (id : List Nat) : Bool :=
  !((id.getD 28 0 == 0) && (id.getD 29 0 == 0) && (id.getD 30 0 == 0) && (id.getD 31 0 == 0))

/-- asset.go `AssetID.Variant`: bytes 28–31, big-endian. -/
def AssetID.Variant (id : List Nat) : Nat :=
  id.getD 28 0 * 2 ^ 24 + id.getD 29 0 * 2 ^ 16 + id.getD 30 0 * 2 ^ 8 + id.getD 31 0

/-- asset.go `AssetID.IsVariant`: true when not all four variant bytes are
zero. -/
def AssetID.IsVariant (id : List Nat) : Bool :=
  !((id.getD 28 0 == 0) && (id.getD 29 0 == 0) && (id.getD 30 0 == 0) && (id.getD 31 0 == 0))

/-- logic.go `LogicID.Variant`: bytes 28–31, big-endian. -/
def LogicID.Variant (id : List Nat) : Nat :=
  id.getD 28 0 * 2 ^ 24 + id.getD 29 0 * 2 ^ 16 + id.getD 30 0 * 2 ^ 8 + id.getD 31 0

/-- logic.go `LogicID.IsVariant`: true when not all four variant bytes are
zero. -/
def LogicID.IsVariant (id : List Nat) : Bool :=
  !((id.getD 28 0 == 0) && (id.getD 29 0 == 0) && (id.getD 30 0 == 0) && (id.getD 31 0 == 0))

/-- participant.go `ParticipantID.Validate`: tag validity (error wrapped but
preserved), then the kind must be `KindParticipant`, then no flag bit outside
the allowed set (`participant[1] & flagMasks[tag] != 0` → malformed flags,
with Go's zero-default map access). -/
def ParticipantID.Validate (id : List Nat) : Option IdErr :=
  match IdentifierTag.Validate (Identifier.Tag id) with
  | some e => some e
  | none =>
    if IdentifierTag.Kind (Identifier.Tag id) ≠ KindParticipant then some .wrongKind
    else if id.getD 1 0 &&& flagMasksGetD (Identifier.Tag id) ≠ 0 then some .malformedFlags
    else none

/-- asset.go `AssetID.Validate`: as for participants with kind `KindAsset`. -/
def AssetID.Validate (id : List Nat) : Option IdErr :=
  match IdentifierTag.Validate (Identifier.Tag id) with
  | some e => some e
  | none =>
    if IdentifierTag.Kind (Identifier.Tag id) ≠ KindAsset then some .wrongKind
    else if id.getD 1 0 &&& flagMasksGetD (Identifier.Tag id) ≠ 0 then some .malformedFlags
    else none

/-- logic.go `LogicID.Validate`: as for participants with kind `KindLogic`. -/
def LogicID.Validate (id : List Nat) : Option IdErr :=
  match IdentifierTag.Validate (Identifier.Tag id) with
  | some e => some e
  | none =>
    if IdentifierTag.Kind (Identifier.Tag id) ≠ KindLogic then some .wrongKind
    else if id.getD 1 0 &&& flagMasksGetD (Identifier.Tag id) ≠ 0 then some .malformedFlags
    else none

/-- participant.go `NewParticipantID`: validate, returning `Nil` with the
error on failure and the input value on success. -/
def NewParticipantID (data : List Nat) : List Nat × Option IdErr :=
  match ParticipantID.Validate data with
  | some e => (Nil32, some e)
  | none => (data, none)

/-- asset.go `NewAssetID`. -/
def NewAssetID (data : List Nat) : List Nat × Option IdErr :=
  match AssetID.Validate data with
  | some e => (Nil32, some e)
  | none => (data, none)

/-- logic.go `NewLogicID`. -/
def NewLogicID (data : List Nat) : List Nat × Option IdErr :=
  match LogicID.Validate data with
  | some e => (Nil32, some e)
  | none => (data, none)

/-- participant.go `NewParticipantIDFromBytes`: strict length-32 policy,
then `NewParticipantID`. -/
def NewParticipantIDFromBytes (data : List Nat) : List Nat × Option IdErr :=
  if data.length ≠ 32 then (Nil32, some .invalidIdLength)
  else NewParticipantID data

/-- asset.go `NewAssetIDFromBytes`. -/
def NewAssetIDFromBytes (data : List Nat) : List Nat × Option IdErr :=
  if data.length ≠ 32 then (Nil32, some .invalidIdLength)
  else NewAssetID data

/-- logic.go `NewLogicIDFromBytes`. -/
def NewLogicIDFromBytes (data : List Nat) : List Nat × Option IdErr :=
  if data.length ≠ 32 then (Nil32, some .invalidIdLength)
  else NewLogicID data

/-- Go `hex` package digit table for encoding: lowercase, `0123456789abcdef`
as ASCII codes. Only applied to nibbles (< 16). -/
def hexDigitChar (n : Nat) : Nat := if n < 10 then 48 + n else 87 + n

/-- Go `hex.Encode` over a byte list: each byte becomes its high nibble's
digit followed by its low nibble's digit. -/
def hexEncode : List Nat → List Nat
  | [] => []
  | b :: rest => hexDigitChar (b / 16) :: hexDigitChar (b % 16) :: hexEncode rest

/-- Go `hex` digit decoding: `0`–`9`, `a`–`f`, `A`–`F`; anything else is an
invalid-byte error (`none`). -/
def decodeHexDigit (c : Nat) : Option Nat :=
  if 48 ≤ c ∧ c ≤ 57 then some (c - 48)
  else if 97 ≤ c ∧ c ≤ 102 then some (c - 87)
  else if 65 ≤ c ∧ c ≤ 70 then some (c - 55)
  else none

/-- Go `hex.DecodeString`: consumes digit pairs; an odd-length input or an
invalid digit is an error (`none`). -/
def hexDecode : List Nat → Option (List Nat)
  | [] => some []
  | [_] => none
  | c1 :: c2 :: rest =>
    match decodeHexDigit c1, decodeHexDigit c2, hexDecode rest with
    | some hi, some lo, some tail => some ((16 * hi + lo) :: tail)
    | _, _, _ => none

/-- common.go `prefix0xBytes`: the two ASCII characters `0` (48) `x` (120). -/
def mark0x : List Nat := [48, 120]

/-- common.go `has0xPrefixBytes`: whether the value starts with `0x`. -/
def has0xMark : List Nat → Bool
  | 48 :: 120 :: _ => true
  | _ => false

/-- common.go `trim0xPrefixBytes` / `trim0xPrefixString`: strip one leading
`0x` if present. -/
def trim0xMarkList (data : List Nat) : List Nat :=
  if has0xMark data then data.drop 2 else data

/-- common.go `decodeHexString`: trim an optional `0x`, then hex-decode. -/
def decodeHexString (s : List Nat) : Option (List Nat) :=
  hexDecode (trim0xMarkList s)

/-- participant.go `NewParticipantIDFromHex`: hex-decode (`0x` optional),
then the byte-slice constructor. -/
def NewParticipantIDFromHex (data : List Nat) : List Nat × Option IdErr :=
  match decodeHexString data with
  | none => (Nil32, some .hexDecodeErr)
  | some decoded => NewParticipantIDFromBytes decoded

/-- asset.go `NewAssetIDFromHex`. -/
def NewAssetIDFromHex (data : List Nat) : List Nat × Option IdErr :=
  match decodeHexString data with
  | none => (Nil32, some .hexDecodeErr)
  | some decoded => NewAssetIDFromBytes decoded

/-- logic.go `NewLogicIDFromHex`. -/
def NewLogicIDFromHex (data : List Nat) : List Nat × Option IdErr :=
  match decodeHexString data with
  | none => (Nil32, some .hexDecodeErr)
  | some decoded => NewLogicIDFromBytes decoded

/-- participant.go `ParticipantID.Bytes`: the raw 32 bytes. -/
def ParticipantID.Bytes (id : List Nat) : List Nat := id

/-- asset.go `AssetID.Bytes`. -/
def AssetID.Bytes (id : List Nat) : List Nat := id

/-- logic.go `LogicID.Bytes`. -/
def LogicID.Bytes (id : List Nat) : List Nat := id

/-- participant.go `ParticipantID.Hex`: `0x` followed by the lowercase hex
encoding of all 32 bytes. -/
def ParticipantID.Hex (id : List Nat) : List Nat := mark0x ++ hexEncode id

/-- asset.go `AssetID.Hex`. -/
def AssetID.Hex (id : List Nat) : List Nat := mark0x ++ hexEncode id

/-- logic.go `LogicID.Hex`. -/
def LogicID.Hex (id : List Nat) : List Nat := mark0x ++ hexEncode id

/-- participant.go `ParticipantID.AsIdentifier`: a lossless reinterpretation
of the same 32 bytes. -/
def ParticipantID.AsIdentifier (id : List Nat) : List Nat := id

/-- asset.go `AssetID.AsIdentifier`. -/
def AssetID.AsIdentifier (id : List Nat) : List Nat := id

/-- logic.go `LogicID.AsIdentifier`. -/
def LogicID.AsIdentifier (id : List Nat) : List Nat := id

/-- identifier.go `Identifier.AsParticipantID` = `NewParticipantID`. -/
def Identifier.AsParticipantID (id : List Nat) : List Nat × Option IdErr :=
  NewParticipantID id

/-- identifier.go `Identifier.AsAssetID` = `NewAssetID`. -/
def Identifier.AsAssetID (id : List Nat) : List Nat × Option IdErr :=
  NewAssetID id

/-- identifier.go `Identifier.AsLogicID` = `NewLogicID`. -/
def Identifier.AsLogicID (id : List Nat) : List Nat × Option IdErr :=
  NewLogicID id

/-- common.go `marshal32`: always succeeds, producing `0x` followed by the
hex encoding of the 32 bytes. -/
def marshal32 (data : List Nat) : List Nat × Option IdErr :=
  (mark0x ++ hexEncode data, none)

/-- common.go `unmarshal32`: require the `0x` mark (else
`ErrMissingHexPrefix`), trim it, require exactly 64 remaining characters
(else `ErrInvalidLength`), then `decodeHexString` (which trims an additional
leading `0x` if the payload happens to begin with one) and a Go
slice-to-`[32]byte` conversion, which panics (`none` result) when fewer than
32 bytes were decoded. -/
def unmarshal32 (data : List Nat) : Option (List Nat × Option IdErr) :=
  if ¬ has0xMark data then some (Nil32, some .missingHexMark)
  else
    let d := data.drop 2
    if d.length ≠ 64 then some (Nil32, some .invalidLength)
    else
      match decodeHexString d with
      | none => some (Nil32, some .hexDecodeErr)
      | some decoded =>
        if decoded.length < 32 then none
        else some (decoded.take 32, none)

/-- Shared generator loop (participant.go/asset.go/logic.go generators):
starting from a zero flags byte, check each requested flag against the fixed
v0 tag and set its bit; the first unsupported flag aborts the whole call
(`none`, surfaced as `ErrUnsupportedFlag`). -/
def applyGenFlags (tag : Nat) (flagsByte : Nat) : List Flag → Option Nat
  | [] => some flagsByte
  | f :: rest =>
    if Flag.Supports f tag then applyGenFlags tag (setFlag flagsByte f.index true) rest
    else none

/-- Big-endian byte decomposition used by `binary.BigEndian.PutUint32`. -/
def be32Bytes (v : Nat) : List Nat :=
  [v / 2 ^ 24 % 256, v / 2 ^ 16 % 256, v / 2 ^ 8 % 256, v % 256]

/-- participant.go `GenerateParticipantIDv0`: metadata
`[tag, flags, 0, 0]`, then the 24-byte account, then the big-endian
variant. -/
def GenerateParticipantIDv0 (account : List Nat) (variant : Nat) (flags : List Flag) :
    List Nat × Option IdErr :=
  match applyGenFlags TagParticipantV0 0 flags with
  | none => (Nil32, some .unsupportedFlag)
  | some fb => ([TagParticipantV0, fb, 0, 0] ++ account ++ be32Bytes variant, none)

/-- asset.go `GenerateAssetIDv0`: metadata `[tag, flags, standard_hi,
standard_lo]` (big-endian uint16 standard), then the 24-byte account, then
the big-endian variant. -/
def GenerateAssetIDv0 (account : List Nat) (variant standard : Nat) (flags : List Flag) :
    List Nat × Option IdErr :=
  match applyGenFlags TagAssetV0 0 flags with
  | none => (Nil32, some .unsupportedFlag)
  | some fb =>
    ([TagAssetV0, fb, standard / 256 % 256, standard % 256] ++ account ++ be32Bytes variant,
      none)

/-- logic.go `GenerateLogicIDv0`: metadata `[tag, flags, 0, 0]`, then the
24-byte account, then the big-endian variant. -/
def GenerateLogicIDv0 (account : List Nat) (variant : Nat) (flags : List Flag) :
    List Nat × Option IdErr :=
  match applyGenFlags TagLogicV0 0 flags with
  | none => (Nil32, some .unsupportedFlag)
  | some fb => ([TagLogicV0, fb, 0, 0] ++ account ++ be32Bytes variant, none)

/-- `binary.BigEndian.PutUint32(derived[28:], variant)` from
`Identifier.DeriveVariant`: overwrite bytes 28–31 with the big-endian
variant. -/
def putVariant (id : List Nat) (variant : Nat) : List Nat :=
  (((id.set 28 (variant / 2 ^ 24 % 256)).set 29 (variant / 2 ^ 16 % 256)).set 30
      (variant / 2 ^ 8 % 256)).set 31 (variant % 256)

/-- One flag loop of `Identifier.DeriveVariant`: for each flag, check support
against the current derived value's tag and set/unset its bit in byte 1;
the first unsupported flag aborts (`none`, surfaced as
`ErrUnsupportedFlag`). -/
def deriveFlagsLoop (d : List Nat) (flags : List Flag) (value : Bool) : Option (List Nat) :=
  match flags with
  | [] => some d
  | f :: rest =>
    if Flag.Supports f (Identifier.Tag d) then
      deriveFlagsLoop (d.set 1 (setFlag (d.getD 1 0) f.index value)) rest value
    else none

/-- `Identifier.DeriveVariant` (generic-identifier source file, lines
133–164): copy the identifier, overwrite the variant bytes, apply the
set-flags loop then the unset-flags loop; any unsupported flag yields
`(Nil, ErrUnsupportedFlag)`. The receiver is a Go value (pass-by-value), so
the source identifier is never modified — the embedding is a pure
function of `id`. -/
def Identifier.DeriveVariant (id : List Nat) (variant : Nat) (toSet toUnset : List Flag) :
    List Nat × Option IdErr :=
  match deriveFlagsLoop (putVariant id variant) toSet true with
  | none => (Nil32, some .unsupportedFlag)
  | some d1 =>
    match deriveFlagsLoop d1 toUnset false with
    | none => (Nil32, some .unsupportedFlag)
    | some d2 => (d2, none)

/-- The 32-byte vector of `TestIdentifier` (identifier_test.go lines 76–86):
participant tag, flags 0x01, metadata 0x02 0x03, a 24-byte account and the
non-zero variant 0x30313233. -/
def testIdentifierVector : List Nat :=
  [0x00, 0x01, 0x02, 0x03,
   0x10, 0x11, 0x12, 0x13, 0x14, 0x15, 0x16, 0x17, 0x18, 0x19, 0x1A, 0x1B,
   0x20, 0x21, 0x22, 0x23, 0x24, 0x25, 0x26, 0x27, 0x28, 0x29, 0x2A, 0x2B,
   0x30, 0x31, 0x32, 0x33]

/-- A concrete valid AssetID: tag 0x10, flags 0x01 (Stateful), standard
0x0010, constant fingerprint, variant 0x42. -/
def sampleAssetId : List Nat :=
  [0x10, 0x01, 0x00, 0x10] ++ List.replicate 24 5 ++ [0, 0, 0, 0x42]

/-- A concrete valid ParticipantID: tag 0x00, flags 0x80 (Systemic). -/
def sampleParticipantId : List Nat :=
  [0x00, 0x80, 0, 0] ++ List.replicate 24 7 ++ [0, 0, 0, 1]

/-- A concrete valid LogicID: tag 0x20, flags 0x07. -/
def sampleLogicId : List Nat :=
  [0x20, 0x07, 0, 0] ++ List.replicate 24 9 ++ [0, 0, 0, 0]

/-- A 32-byte value with the participant tag but flags byte 0b11111111. -/
def badFlagsParticipantId : List Nat :=
  [0x00, 0xFF, 0, 0] ++ List.replicate 24 7 ++ [0, 0, 0, 1]

/-- Byte-width shift mask for an in-range index. -/
theorem shiftMask_eq {i : Nat} (h : i ≤ 7) : (1 <<< i) % 256 = 2 ^ i := by
  rw [Nat.shiftLeft_eq, one_mul]
  have h2 : (2 : Nat) ^ i ≤ 2 ^ 7 := Nat.pow_le_pow_right (by norm_num) h
  exact Nat.mod_eq_of_lt (lt_of_le_of_lt h2 (by norm_num))

/-- An in-range flag read is a bit test. -/
theorem getFlag_testBit (b : Nat) {i : Nat} (h : i ≤ 7) : getFlag b i = b.testBit i := by
  unfold getFlag
  rw [shiftMask_eq h, Nat.and_two_pow]
  cases hb : b.testBit i
  · simp [hb]
  · simp only [hb, Bool.toNat_true, one_mul, ne_eq, decide_eq_true_eq]
    exact (Nat.pow_pos (by norm_num)).ne'

/-- An in-range flag set is a bitwise or with the index's power of two. -/
theorem setFlag_true_eq (b : Nat) {i : Nat} (h : i ≤ 7) : setFlag b i true = b ||| 2 ^ i := by
  unfold setFlag
  rw [shiftMask_eq h]
  simp

/-- An in-range flag clear is a bitwise and with the byte complement. -/
theorem setFlag_false_eq (b : Nat) {i : Nat} (h : i ≤ 7) :
    setFlag b i false = b &&& (255 ^^^ 2 ^ i) := by
  unfold setFlag
  rw [shiftMask_eq h]
  simp

/-- Every bit position of the byte 255 is set. -/
theorem testBit_byteMask {j : Nat} (h : j ≤ 7) : Nat.testBit 255 j = true := by
  interval_cases j <;> decide

/-- A just-written in-range flag bit reads back as written. -/
theorem getFlag_setFlag_self (b : Nat) {i : Nat} (h : i ≤ 7) (v : Bool) :
    getFlag (setFlag b i v) i = v := by
  cases v
  · rw [getFlag_testBit _ h, setFlag_false_eq b h, Nat.testBit_land, Nat.testBit_xor,
      testBit_byteMask h, Nat.testBit_two_pow_self]
    simp
  · rw [getFlag_testBit _ h, setFlag_true_eq b h, Nat.testBit_lor, Nat.testBit_two_pow_self]
    simp

/-- Writing one in-range flag bit leaves every other in-range bit alone. -/
theorem getFlag_setFlag_other (b : Nat) {i j : Nat} (hi : i ≤ 7) (hj : j ≤ 7) (hne : j ≠ i)
    (v : Bool) : getFlag (setFlag b j v) i = getFlag b i := by
  cases v
  · rw [getFlag_testBit _ hi, setFlag_false_eq b hj, Nat.testBit_land, Nat.testBit_xor,
      testBit_byteMask hi, Nat.testBit_two_pow_of_ne hne, getFlag_testBit _ hi]
    simp
  · rw [getFlag_testBit _ hi, setFlag_true_eq b hj, Nat.testBit_lor,
      Nat.testBit_two_pow_of_ne hne, getFlag_testBit _ hi]
    simp

/-- Reading a defaulted byte away from a written position. -/
theorem getD_set_of_ne (l : List Nat) {i j : Nat} (a : Nat) (h : i ≠ j) :
    (l.set i a).getD j 0 = l.getD j 0 := by
  simp [List.getD_eq_getElem?_getD, List.getElem?_set_ne h]

/-- Reading a defaulted byte at an in-bounds written position. -/
theorem getD_set_self (l : List Nat) {i : Nat} (a : Nat) (h : i < l.length) :
    (l.set i a).getD i 0 = a := by
  simp [List.getD_eq_getElem?_getD, List.getElem?_set_eq_of_lt a h]

/-- Writing the variant bytes leaves every byte outside 28–31 alone. -/
theorem putVariant_getD_of_ne (id : List Nat) (v : Nat) (j : Nat)
    (h : j ≠ 28 ∧ j ≠ 29 ∧ j ≠ 30 ∧ j ≠ 31) :
    (putVariant id v).getD j 0 = id.getD j 0 := by
  unfold putVariant
  rw [getD_set_of_ne _ _ (by omega), getD_set_of_ne _ _ (by omega),
    getD_set_of_ne _ _ (by omega), getD_set_of_ne _ _ (by omega)]

/-- Writing the variant bytes preserves the list length. -/
theorem putVariant_length (id : List Nat) (v : Nat) :
    (putVariant id v).length = id.length := by
  simp [putVariant]

/-- After writing a 32-bit variant into a 32-byte identifier, reading the
variant back yields the written value. -/
theorem putVariant_variant (id : List Nat) (v : Nat) (hlen : id.length = 32)
    (hv : v < 2 ^ 32) : Identifier.Variant (putVariant id v) = v := by
  have h28 : (putVariant id v).getD 28 0 = v / 2 ^ 24 % 256 := by
    unfold putVariant
    rw [getD_set_of_ne _ _ (by omega), getD_set_of_ne _ _ (by omega),
      getD_set_of_ne _ _ (by omega), getD_set_self _ _ (by omega)]
  have h29 : (putVariant id v).getD 29 0 = v / 2 ^ 16 % 256 := by
    unfold putVariant
    rw [getD_set_of_ne _ _ (by omega), getD_set_of_ne _ _ (by omega),
      getD_set_self _ _ (by simp [List.length_set]; omega)]
  have h30 : (putVariant id v).getD 30 0 = v / 2 ^ 8 % 256 := by
    unfold putVariant
    rw [getD_set_of_ne _ _ (by omega), getD_set_self _ _ (by simp [List.length_set]; omega)]
  have h31 : (putVariant id v).getD 31 0 = v % 256 := by
    unfold putVariant
    rw [getD_set_self _ _ (by simp [List.length_set]; omega)]
  unfold Identifier.Variant
  rw [h28, h29, h30, h31]
  omega

/-- A flag loop step never changes bytes other than byte 1, in particular
not the tag byte or the variant bytes. -/
theorem deriveFlagsLoop_getD {fs : List Flag} {v : Bool} {d d' : List Nat}
    (h : deriveFlagsLoop d fs v = some d') (j : Nat) (hj : j ≠ 1) :
    d'.getD j 0 = d.getD j 0 := by
  induction fs generalizing d with
  | nil =>
    unfold deriveFlagsLoop at h
    cases h
    rfl
  | cons f rest ih =>
    unfold deriveFlagsLoop at h
    by_cases hs : Flag.Supports f (Identifier.Tag d)
    · rw [if_pos hs] at h
      rw [ih h, getD_set_of_ne _ _ (by omega)]
    · rw [if_neg hs] at h
      exact absurd h (by simp)

/-- A flag loop preserves the list length. -/
theorem deriveFlagsLoop_length {fs : List Flag} {v : Bool} {d d' : List Nat}
    (h : deriveFlagsLoop d fs v = some d') : d'.length = d.length := by
  induction fs generalizing d with
  | nil =>
    unfold deriveFlagsLoop at h
    cases h
    rfl
  | cons f rest ih =>
    unfold deriveFlagsLoop at h
    by_cases hs : Flag.Supports f (Identifier.Tag d)
    · rw [if_pos hs] at h
      rw [ih h, List.length_set]
    · rw [if_neg hs] at h
      exact absurd h (by simp)

/-- Setting byte 1 does not change the tag byte. -/
theorem tag_set_flags (d : List Nat) (b : Nat) :
    Identifier.Tag (d.set 1 b) = Identifier.Tag d := by
  unfold Identifier.Tag
  exact getD_set_of_ne _ _ (by omega)

/-- A flag loop fails exactly when some listed flag does not support the
tag of the value it starts from. -/
theorem deriveFlagsLoop_eq_none_iff {fs : List Flag} {v : Bool} {d : List Nat} :
    deriveFlagsLoop d fs v = none ↔
      ∃ f ∈ fs, Flag.Supports f (Identifier.Tag d) = false := by
  induction fs generalizing d with
  | nil => simp [deriveFlagsLoop]
  | cons f rest ih =>
    unfold deriveFlagsLoop
    by_cases hs : Flag.Supports f (Identifier.Tag d)
    · rw [if_pos hs, ih, tag_set_flags]
      simp only [List.mem_cons]
      constructor
      · rintro ⟨g, hg, hgs⟩
        exact ⟨g, Or.inr hg, hgs⟩
      · rintro ⟨g, hg | hg, hgs⟩
        · subst hg
          simp [hs] at hgs
        · exact ⟨g, hg, hgs⟩
    · rw [if_neg hs]
      simp only [List.mem_cons]
      exact iff_of_true trivial ⟨f, Or.inl rfl, by simpa using hs⟩

/-- Through an unset loop, a clear in-range bit stays clear. -/
theorem deriveFlagsLoop_false_mono {fs : List Flag} {d d' : List Nat}
    (hidx : ∀ f ∈ fs, f.index ≤ 7) (hlen : 2 ≤ d.length)
    (h : deriveFlagsLoop d fs false = some d') {i : Nat} (hi : i ≤ 7)
    (hb : getFlag (d.getD 1 0) i = false) : getFlag (d'.getD 1 0) i = false := by
  induction fs generalizing d with
  | nil =>
    unfold deriveFlagsLoop at h
    cases h
    exact hb
  | cons f rest ih =>
    unfold deriveFlagsLoop at h
    by_cases hs : Flag.Supports f (Identifier.Tag d)
    · rw [if_pos hs] at h
      have hf7 : f.index ≤ 7 := hidx f (by simp)
      have hb1 : (d.set 1 (setFlag (d.getD 1 0) f.index false)).getD 1 0 =
          setFlag (d.getD 1 0) f.index false := getD_set_self _ _ (by omega)
      refine ih (fun g hg => hidx g (by simp [hg])) (by simp [List.length_set]; omega) h ?_
      rw [hb1]
      by_cases hif : i = f.index
      · subst hif
        exact getFlag_setFlag_self _ hi false
      · rw [getFlag_setFlag_other _ hi hf7 (fun hc => hif hc.symm) false]
        exact hb
    · rw [if_neg hs] at h
      exact absurd h (by simp)

/-- An unset loop clears the bit of every flag it lists. -/
theorem deriveFlagsLoop_false_clears {fs : List Flag} {d d' : List Nat}
    (hidx : ∀ f ∈ fs, f.index ≤ 7) (hlen : 2 ≤ d.length)
    (h : deriveFlagsLoop d fs false = some d') :
    ∀ f ∈ fs, getFlag (d'.getD 1 0) f.index = false := by
  induction fs generalizing d with
  | nil => simp
  | cons f rest ih =>
    unfold deriveFlagsLoop at h
    by_cases hs : Flag.Supports f (Identifier.Tag d)
    · rw [if_pos hs] at h
      have hf7 : f.index ≤ 7 := hidx f (by simp)
      have hlen1 : 2 ≤ (d.set 1 (setFlag (d.getD 1 0) f.index false)).length := by
        simp [List.length_set]
        omega
      have hb1 : (d.set 1 (setFlag (d.getD 1 0) f.index false)).getD 1 0 =
          setFlag (d.getD 1 0) f.index false := getD_set_self _ _ (by omega)
      intro g hg
      rcases List.mem_cons.mp hg with hgf | hgr
      · subst hgf
        refine deriveFlagsLoop_false_mono (fun g' hg' => hidx g' (by simp [hg'])) hlen1 h hf7 ?_
        rw [hb1]
        exact getFlag_setFlag_self _ hf7 false
      · exact ih (fun g' hg' => hidx g' (by simp [hg'])) hlen1 h g hgr
    · rw [if_neg hs] at h
      exact absurd h (by simp)

/-- Through a set loop, a set in-range bit stays set. -/
theorem deriveFlagsLoop_true_mono {fs : List Flag} {d d' : List Nat}
    (hidx : ∀ f ∈ fs, f.index ≤ 7) (hlen : 2 ≤ d.length)
    (h : deriveFlagsLoop d fs true = some d') {i : Nat} (hi : i ≤ 7)
    (hb : getFlag (d.getD 1 0) i = true) : getFlag (d'.getD 1 0) i = true := by
  induction fs generalizing d with
  | nil =>
    unfold deriveFlagsLoop at h
    cases h
    exact hb
  | cons f rest ih =>
    unfold deriveFlagsLoop at h
    by_cases hs : Flag.Supports f (Identifier.Tag d)
    · rw [if_pos hs] at h
      have hf7 : f.index ≤ 7 := hidx f (by simp)
      have hb1 : (d.set 1 (setFlag (d.getD 1 0) f.index true)).getD 1 0 =
          setFlag (d.getD 1 0) f.index true := getD_set_self _ _ (by omega)
      refine ih (fun g hg => hidx g (by simp [hg])) (by simp [List.length_set]; omega) h ?_
      rw [hb1]
      by_cases hif : i = f.index
      · subst hif
        exact getFlag_setFlag_self _ hi true
      · rw [getFlag_setFlag_other _ hi hf7 (fun hc => hif hc.symm) true]
        exact hb
    · rw [if_neg hs] at h
      exact absurd h (by simp)

/-- A set loop sets the bit of every flag it lists. -/
theorem deriveFlagsLoop_true_sets {fs : List Flag} {d d' : List Nat}
    (hidx : ∀ f ∈ fs, f.index ≤ 7) (hlen : 2 ≤ d.length)
    (h : deriveFlagsLoop d fs true = some d') :
    ∀ f ∈ fs, getFlag (d'.getD 1 0) f.index = true := by
  induction fs generalizing d with
  | nil => simp
  | cons f rest ih =>
    unfold deriveFlagsLoop at h
    by_cases hs : Flag.Supports f (Identifier.Tag d)
    · rw [if_pos hs] at h
      have hf7 : f.index ≤ 7 := hidx f (by simp)
      have hlen1 : 2 ≤ (d.set 1 (setFlag (d.getD 1 0) f.index true)).length := by
        simp [List.length_set]
        omega
      have hb1 : (d.set 1 (setFlag (d.getD 1 0) f.index true)).getD 1 0 =
          setFlag (d.getD 1 0) f.index true := getD_set_self _ _ (by omega)
      intro g hg
      rcases List.mem_cons.mp hg with hgf | hgr
      · subst hgf
        refine deriveFlagsLoop_true_mono (fun g' hg' => hidx g' (by simp [hg'])) hlen1 h hf7 ?_
        rw [hb1]
        exact getFlag_setFlag_self _ hf7 true
      · exact ih (fun g' hg' => hidx g' (by simp [hg'])) hlen1 h g hgr
    · rw [if_neg hs] at h
      exact absurd h (by simp)

/-- A loop over flags whose indices all differ from `i` leaves bit `i` of
the flags byte unchanged. -/
theorem deriveFlagsLoop_untouched {fs : List Flag} {v : Bool} {d d' : List Nat}
    (hidx : ∀ f ∈ fs, f.index ≤ 7) (hlen : 2 ≤ d.length)
    (h : deriveFlagsLoop d fs v = some d') {i : Nat} (hi : i ≤ 7)
    (hnm : ∀ f ∈ fs, f.index ≠ i) :
    getFlag (d'.getD 1 0) i = getFlag (d.getD 1 0) i := by
  induction fs generalizing d with
  | nil =>
    unfold deriveFlagsLoop at h
    cases h
    rfl
  | cons f rest ih =>
    unfold deriveFlagsLoop at h
    by_cases hs : Flag.Supports f (Identifier.Tag d)
    · rw [if_pos hs] at h
      have hf7 : f.index ≤ 7 := hidx f (by simp)
      have hb1 : (d.set 1 (setFlag (d.getD 1 0) f.index v)).getD 1 0 =
          setFlag (d.getD 1 0) f.index v := getD_set_self _ _ (by omega)
      rw [ih (fun g hg => hidx g (by simp [hg])) (by simp [List.length_set]; omega) h
        (fun g hg => hnm g (by simp [hg]))]
      rw [hb1, getFlag_setFlag_other _ hi hf7 (hnm f (by simp)) v]
    · rw [if_neg hs] at h
      exact absurd h (by simp)

/-- C1. The spec claims `IsVariant() == (Variant() != 0)` for the generic
`Identifier` and every kind-specific type. The kind-specific types satisfy
it, but `Identifier.IsVariant` (identifier.go lines 134–138) is missing the
negation: on the `TestIdentifier` vector (variant bytes 30 31 32 33) it
returns `false` although the variant is the non-zero 0x30313233, and on the
all-zero identifier it returns `true` although the variant is zero —
contradicting both the claim and the function's own doc comment and test. -/
theorem C1_isVariant_mismatch :
    Identifier.Variant testIdentifierVector = 0x30313233 ∧
    Identifier.IsVariant testIdentifierVector = false ∧
    Identifier.IsVariant Nil32 = true ∧
    Identifier.Variant Nil32 = 0 ∧
    ParticipantID.IsVariant testIdentifierVector = true ∧
    AssetID.IsVariant Nil32 = false ∧
    LogicID.IsVariant Nil32 = false := by decide

/-- C2 counterexample. The claim states `NewParticipantID(Nil)` returns an
error; in fact it succeeds: the all-zero value carries tag byte 0x00 — the
valid Participant v0 tag — with a zero flags byte, so
`ParticipantID.Validate` accepts it and the constructor returns the value
with no error. -/
theorem C2_counterexample : NewParticipantID Nil32 = (Nil32, none) := by decide

/-- C2 amended: `NewAssetID(Nil)` and `NewLogicID(Nil)` do return errors
(the participant tag 0x00 is the wrong kind for both), but
`NewParticipantID(Nil)` succeeds, returning the nil value with no error. -/
theorem C2_nil_validity :
    (NewAssetID Nil32).2 = some .wrongKind ∧
    (NewLogicID Nil32).2 = some .wrongKind ∧
    NewParticipantID Nil32 = (Nil32, none) := by decide

/-- C3. `DeriveVariant` is atomic: when every requested flag supports the
identifier's tag it returns a copy whose variant is the requested one, whose
tag is unchanged, whose bytes outside the flags/variant fields are
unchanged, with every flag of the unset list cleared and every flag of the
set list (whose bit is not also listed for unsetting) set; when any
requested flag does not support the tag it returns the nil identifier with
`ErrUnsupportedFlag`. The receiver is passed by value, so the source is
byte-for-byte unchanged in every case — the embedding is a pure function
that never modifies `id`. The index bound is the invariant `makeFlag`
asserts for every constructible flag. -/
theorem C3_deriveVariant_atomicity (id : List Nat) (v : Nat) (toSet toUnset : List Flag)
    (hlen : id.length = 32) (hv : v < 2 ^ 32)
    (hidx : ∀ f ∈ toSet ++ toUnset, f.index ≤ 7) :
    ((∀ f ∈ toSet ++ toUnset, Flag.Supports f (Identifier.Tag id) = true) →
      ∃ d, Identifier.DeriveVariant id v toSet toUnset = (d, none) ∧
        Identifier.Variant d = v ∧
        Identifier.Tag d = Identifier.Tag id ∧
        (∀ j, j ≠ 1 → j ≠ 28 → j ≠ 29 → j ≠ 30 → j ≠ 31 → d.getD j 0 = id.getD j 0) ∧
        (∀ f ∈ toUnset, getFlag (d.getD 1 0) f.index = false) ∧
        (∀ f ∈ toSet, (∀ g ∈ toUnset, g.index ≠ f.index) →
          getFlag (d.getD 1 0) f.index = true)) ∧
    ((∃ f ∈ toSet ++ toUnset, Flag.Supports f (Identifier.Tag id) = false) →
      Identifier.DeriveVariant id v toSet toUnset = (Nil32, some .unsupportedFlag)) := by
  have hd0tag : Identifier.Tag (putVariant id v) = Identifier.Tag id :=
    putVariant_getD_of_ne id v 0 (by omega)
  have hidxS : ∀ f ∈ toSet, f.index ≤ 7 := fun f hf => hidx f (by simp [hf])
  have hidxU : ∀ f ∈ toUnset, f.index ≤ 7 := fun f hf => hidx f (by simp [hf])
  constructor
  · intro hsup
    obtain ⟨d1, hd1⟩ : ∃ d1, deriveFlagsLoop (putVariant id v) toSet true = some d1 := by
      cases hcase : deriveFlagsLoop (putVariant id v) toSet true with
      | none =>
        obtain ⟨f, hf, hfs⟩ := deriveFlagsLoop_eq_none_iff.mp hcase
        rw [hd0tag, hsup f (by simp [hf])] at hfs
        cases hfs
      | some d1 => exact ⟨d1, rfl⟩
    have hd1tag : Identifier.Tag d1 = Identifier.Tag id := by
      show d1.getD 0 0 = id.getD 0 0
      rw [deriveFlagsLoop_getD hd1 0 (by omega)]
      exact hd0tag
    have hd1len : d1.length = 32 := by
      rw [deriveFlagsLoop_length hd1, putVariant_length, hlen]
    obtain ⟨d2, hd2⟩ : ∃ d2, deriveFlagsLoop d1 toUnset false = some d2 := by
      cases hcase : deriveFlagsLoop d1 toUnset false with
      | none =>
        obtain ⟨f, hf, hfs⟩ := deriveFlagsLoop_eq_none_iff.mp hcase
        rw [hd1tag, hsup f (by simp [hf])] at hfs
        cases hfs
      | some d2 => exact ⟨d2, rfl⟩
    refine ⟨d2, ?_, ?_, ?_, ?_, ?_, ?_⟩
    · simp [Identifier.DeriveVariant, hd1, hd2]
    · have h28 := deriveFlagsLoop_getD hd2 28 (by omega)
      have h29 := deriveFlagsLoop_getD hd2 29 (by omega)
      have h30 := deriveFlagsLoop_getD hd2 30 (by omega)
      have h31 := deriveFlagsLoop_getD hd2 31 (by omega)
      have g28 := deriveFlagsLoop_getD hd1 28 (by omega)
      have g29 := deriveFlagsLoop_getD hd1 29 (by omega)
      have g30 := deriveFlagsLoop_getD hd1 30 (by omega)
      have g31 := deriveFlagsLoop_getD hd1 31 (by omega)
      have : Identifier.Variant d2 = Identifier.Variant (putVariant id v) := by
        unfold Identifier.Variant
        rw [h28, h29, h30, h31, g28, g29, g30, g31]
      rw [this, putVariant_variant id v hlen hv]
    · show d2.getD 0 0 = id.getD 0 0
      rw [deriveFlagsLoop_getD hd2 0 (by omega)]
      exact hd1tag
    · intro j hj1 hj28 hj29 hj30 hj31
      rw [deriveFlagsLoop_getD hd2 j hj1, deriveFlagsLoop_getD hd1 j hj1]
      exact putVariant_getD_of_ne id v j (by omega)
    · exact deriveFlagsLoop_false_clears hidxU (by omega) hd2
    · intro f hf hdisj
      have hth : getFlag (d1.getD 1 0) f.index = true :=
        deriveFlagsLoop_true_sets hidxS (by rw [putVariant_length]; omega) hd1 f hf
      rw [deriveFlagsLoop_untouched hidxU (by omega) hd2 (hidxS f hf)
        (fun g hg => hdisj g hg)]
      exact hth
  · rintro ⟨f, hf, hfs⟩
    by_cases hset : ∀ g ∈ toSet, Flag.Supports g (Identifier.Tag id) = true
    · obtain ⟨d1, hd1⟩ : ∃ d1, deriveFlagsLoop (putVariant id v) toSet true = some d1 := by
        cases hcase : deriveFlagsLoop (putVariant id v) toSet true with
        | none =>
          obtain ⟨g, hg, hgs⟩ := deriveFlagsLoop_eq_none_iff.mp hcase
          rw [hd0tag, hset g hg] at hgs
          cases hgs
        | some d1 => exact ⟨d1, rfl⟩
      have hd1tag : Identifier.Tag d1 = Identifier.Tag id := by
        show d1.getD 0 0 = id.getD 0 0
        rw [deriveFlagsLoop_getD hd1 0 (by omega)]
        exact hd0tag
      have hfU : f ∈ toUnset := by
        rcases List.mem_append.mp hf with hfS | hfU
        · rw [hset f hfS] at hfs
          cases hfs
        · exact hfU
      have hnone : deriveFlagsLoop d1 toUnset false = none :=
        deriveFlagsLoop_eq_none_iff.mpr ⟨f, hfU, by rw [hd1tag]; exact hfs⟩
      simp [Identifier.DeriveVariant, hd1, hnone]
    · have hnone : deriveFlagsLoop (putVariant id v) toSet true = none := by
        push_neg at hset
        obtain ⟨g, hg, hgs⟩ := hset
        exact deriveFlagsLoop_eq_none_iff.mpr
          ⟨g, hg, by rw [hd0tag]; exact Bool.not_eq_true _ ▸ (by simpa using hgs)⟩
      simp [Identifier.DeriveVariant, hnone]

/-- C3 witness: deriving variant 100 on a concrete valid AssetID, setting
AssetLogical and unsetting AssetStateful, succeeds with the stated
outcome. -/
theorem C3_witness :
    ∃ d, Identifier.DeriveVariant sampleAssetId 100 [AssetLogical] [AssetStateful] =
        (d, none) ∧
      Identifier.Variant d = 100 ∧
      Identifier.Tag d = Identifier.Tag sampleAssetId ∧
      (∀ j, j ≠ 1 → j ≠ 28 → j ≠ 29 → j ≠ 30 → j ≠ 31 →
        d.getD j 0 = sampleAssetId.getD j 0) ∧
      (∀ f ∈ [AssetStateful], getFlag (d.getD 1 0) f.index = false) ∧
      (∀ f ∈ [AssetLogical], (∀ g ∈ [AssetStateful], g.index ≠ f.index) →
        getFlag (d.getD 1 0) f.index = true) :=
  (C3_deriveVariant_atomicity sampleAssetId 100 [AssetLogical] [AssetStateful]
    (by decide) (by decide) (by decide)).1 (by decide)

/-- Bitwise view of `a &&& m = 0`. -/
theorem and_eq_zero_testBit {a m : Nat} (h : a &&& m = 0) (k : Nat) :
    (a.testBit k && m.testBit k) = false := by
  have hk := congrArg (fun n => Nat.testBit n k) h
  simpa [Nat.testBit_land] using hk

/-- Two values disjoint from a mask stay disjoint after a bitwise or. -/
theorem or_and_eq_zero {a b m : Nat} (ha : a &&& m = 0) (hb : b &&& m = 0) :
    (a ||| b) &&& m = 0 := by
  apply Nat.eq_of_testBit_eq
  intro k
  have h1 := and_eq_zero_testBit ha k
  have h2 := and_eq_zero_testBit hb k
  rw [Nat.testBit_land, Nat.testBit_lor]
  cases hta : a.testBit k <;> cases htm : m.testBit k <;> simp_all

/-- Every catalogue flag has an in-range index, and whenever it supports one
of the three v0 tags, its bit is outside that tag's disallowed mask. -/
theorem catalog_flag_mask (f : Flag) (hf : f ∈ catalogFlags) :
    f.index ≤ 7 ∧
    (Flag.Supports f TagParticipantV0 = true →
      2 ^ f.index &&& flagMasksGetD TagParticipantV0 = 0) ∧
    (Flag.Supports f TagAssetV0 = true → 2 ^ f.index &&& flagMasksGetD TagAssetV0 = 0) ∧
    (Flag.Supports f TagLogicV0 = true → 2 ^ f.index &&& flagMasksGetD TagLogicV0 = 0) := by
  simp only [catalogFlags, List.mem_cons, List.not_mem_nil, or_false] at hf
  rcases hf with rfl | rfl | rfl | rfl | rfl | rfl <;>
    exact ⟨by decide, by decide, by decide, by decide⟩

/-- The generator flag loop keeps the flags byte disjoint from any mask all
supported catalogue bits are disjoint from. -/
theorem applyGenFlags_mask {tag mask : Nat} {fs : List Flag} {fb fb' : Nat}
    (hgood : ∀ f ∈ fs, f.index ≤ 7 ∧
      (Flag.Supports f tag = true → 2 ^ f.index &&& mask = 0))
    (hfb : fb &&& mask = 0)
    (h : applyGenFlags tag fb fs = some fb') : fb' &&& mask = 0 := by
  induction fs generalizing fb with
  | nil =>
    unfold applyGenFlags at h
    cases h
    exact hfb
  | cons f rest ih =>
    unfold applyGenFlags at h
    by_cases hs : Flag.Supports f tag
    · rw [if_pos hs] at h
      obtain ⟨hf7, hfm⟩ := hgood f (by simp)
      refine ih (fun g hg => hgood g (by simp [hg])) ?_ h
      rw [setFlag_true_eq _ hf7]
      exact or_and_eq_zero hfb (hfm hs)
    · rw [if_neg hs] at h
      exact absurd h (by simp)

/-- A name for a successfully generated flags byte's disjointness from the
corresponding tag's mask, specialised per kind via `catalog_flag_mask`. -/
theorem applyGenFlags_mask_catalog {tag : Nat} {fs : List Flag} {fb' : Nat}
    (htag : tag = TagParticipantV0 ∨ tag = TagAssetV0 ∨ tag = TagLogicV0)
    (hcat : ∀ f ∈ fs, f ∈ catalogFlags)
    (h : applyGenFlags tag 0 fs = some fb') : fb' &&& flagMasksGetD tag = 0 := by
  refine applyGenFlags_mask (fun f hf => ?_) (by simp) h
  obtain ⟨h7, hp, ha, hl⟩ := catalog_flag_mask f (hcat f hf)
  rcases htag with rfl | rfl | rfl
  · exact ⟨h7, hp⟩
  · exact ⟨h7, ha⟩
  · exact ⟨h7, hl⟩

/-- Validation of a value built by the asset generator reduces to the flags
byte being inside the allowed set. -/
theorem assetValidate_generated (fb : Nat) (rest : List Nat)
    (hfb : fb &&& flagMasksGetD TagAssetV0 = 0) :
    AssetID.Validate (16 :: fb :: rest) = none := by
  unfold AssetID.Validate
  have htag : Identifier.Tag (16 :: fb :: rest) = 16 := rfl
  rw [htag]
  have h1 : (16 :: fb :: rest).getD 1 0 = fb := rfl
  rw [h1]
  have hfb2 : fb &&& 124 = 0 := by
    simpa [flagMasksGetD, flagMasks, TagAssetV0, TagParticipantV0, TagLogicV0] using hfb
  norm_num [IdentifierTag.Validate, IdentifierTag.Kind, IdentifierTag.Version,
    IdentifierKind.Supports, maxIdentifierKind, KindLogic, KindAsset, TagParticipantV0,
    TagAssetV0, TagLogicV0, flagMasksGetD, flagMasks, hfb2]

/-- Validation of a value built by the participant generator reduces to the
flags byte being inside the allowed set. -/
theorem participantValidate_generated (fb : Nat) (rest : List Nat)
    (hfb : fb &&& flagMasksGetD TagParticipantV0 = 0) :
    ParticipantID.Validate (0 :: fb :: rest) = none := by
  unfold ParticipantID.Validate
  have htag : Identifier.Tag (0 :: fb :: rest) = 0 := rfl
  rw [htag]
  have h1 : (0 :: fb :: rest).getD 1 0 = fb := rfl
  rw [h1]
  have hfb2 : fb &&& 127 = 0 := by
    simpa [flagMasksGetD, flagMasks, TagAssetV0, TagParticipantV0, TagLogicV0] using hfb
  norm_num [IdentifierTag.Validate, IdentifierTag.Kind, IdentifierTag.Version,
    IdentifierKind.Supports, maxIdentifierKind, KindLogic, KindParticipant, TagParticipantV0,
    TagAssetV0, TagLogicV0, flagMasksGetD, flagMasks, hfb2]

/-- Validation of a value built by the logic generator reduces to the flags
byte being inside the allowed set. -/
theorem logicValidate_generated (fb : Nat) (rest : List Nat)
    (hfb : fb &&& flagMasksGetD TagLogicV0 = 0) :
    LogicID.Validate (32 :: fb :: rest) = none := by
  unfold LogicID.Validate
  have htag : Identifier.Tag (32 :: fb :: rest) = 32 := rfl
  rw [htag]
  have h1 : (32 :: fb :: rest).getD 1 0 = fb := rfl
  rw [h1]
  have hfb2 : fb &&& 120 = 0 := by
    simpa [flagMasksGetD, flagMasks, TagAssetV0, TagParticipantV0, TagLogicV0] using hfb
  norm_num [IdentifierTag.Validate, IdentifierTag.Kind, IdentifierTag.Version,
    IdentifierKind.Supports, maxIdentifierKind, KindLogic, TagParticipantV0,
    TagAssetV0, TagLogicV0, flagMasksGetD, flagMasks, hfb2]

/-- C4. Whenever a v0 generator returns without error, the produced value
passes its own type's validator; stated for the asset, participant and logic
generators over catalogue flags (the only `Flag` values constructible by a
caller, since `Flag` fields are unexported). -/
theorem C4_generator_validity (account : List Nat) (variant standard : Nat)
    (flags : List Flag) (hacc : account.length = 24)
    (hcat : ∀ f ∈ flags, f ∈ catalogFlags) :
    ((GenerateAssetIDv0 account variant standard flags).2 = none →
      AssetID.Validate (GenerateAssetIDv0 account variant standard flags).1 = none) ∧
    ((GenerateParticipantIDv0 account variant flags).2 = none →
      ParticipantID.Validate (GenerateParticipantIDv0 account variant flags).1 = none) ∧
    ((GenerateLogicIDv0 account variant flags).2 = none →
      LogicID.Validate (GenerateLogicIDv0 account variant flags).1 = none) := by
  refine ⟨?_, ?_, ?_⟩
  · intro hok
    cases happ : applyGenFlags TagAssetV0 0 flags with
    | none => simp [GenerateAssetIDv0, happ] at hok
    | some fb =>
      have hfb := applyGenFlags_mask_catalog (Or.inr (Or.inl rfl)) hcat happ
      simp only [GenerateAssetIDv0, happ]
      exact assetValidate_generated fb _ hfb
  · intro hok
    cases happ : applyGenFlags TagParticipantV0 0 flags with
    | none => simp [GenerateParticipantIDv0, happ] at hok
    | some fb =>
      have hfb := applyGenFlags_mask_catalog (Or.inl rfl) hcat happ
      simp only [GenerateParticipantIDv0, happ]
      exact participantValidate_generated fb _ hfb
  · intro hok
    cases happ : applyGenFlags TagLogicV0 0 flags with
    | none => simp [GenerateLogicIDv0, happ] at hok
    | some fb =>
      have hfb := applyGenFlags_mask_catalog (Or.inr (Or.inr rfl)) hcat happ
      simp only [GenerateLogicIDv0, happ]
      exact logicValidate_generated fb _ hfb

/-- C4 witness: generating with the Systemic flag set succeeds for all three
kinds and each result validates. -/
theorem C4_witness :
    AssetID.Validate (GenerateAssetIDv0 (List.replicate 24 5) 7 16 [Systemic]).1 = none ∧
    ParticipantID.Validate
      (GenerateParticipantIDv0 (List.replicate 24 5) 7 [Systemic]).1 = none ∧
    LogicID.Validate (GenerateLogicIDv0 (List.replicate 24 5) 7 [Systemic]).1 = none := by
  obtain ⟨h1, h2, h3⟩ := C4_generator_validity (List.replicate 24 5) 7 16 [Systemic]
    (by decide) (by intro f hf; simp [catalogFlags]; simp at hf; simp [hf])
  exact ⟨h1 (by decide), h2 (by decide), h3 (by decide)⟩

/-- Encoding a nibble then decoding it is the identity. -/
theorem decode_hexDigitChar {n : Nat} (h : n < 16) :
    decodeHexDigit (hexDigitChar n) = some n := by
  interval_cases n <;> decide

/-- Each hex digit character lies in the lowercase hex alphabet. -/
theorem hexDigitChar_range {n : Nat} (h : n < 16) :
    (48 ≤ hexDigitChar n ∧ hexDigitChar n ≤ 57) ∨
    (97 ≤ hexDigitChar n ∧ hexDigitChar n ≤ 102) := by
  interval_cases n <;> decide

/-- Hex-decoding a hex-encoded byte list recovers the list. -/
theorem hexDecode_hexEncode {l : List Nat} (hb : ∀ b ∈ l, b < 256) :
    hexDecode (hexEncode l) = some l := by
  induction l with
  | nil => rfl
  | cons b rest ih =>
    have hblt : b < 256 := hb b (by simp)
    have hhi : b / 16 < 16 := by omega
    have hlo : b % 16 < 16 := by omega
    have hrest := ih (fun c hc => hb c (by simp [hc]))
    simp only [hexEncode, hexDecode, decode_hexDigitChar hhi, decode_hexDigitChar hlo, hrest]
    rw [Nat.div_add_mod b 16]

/-- Hex encoding doubles the length. -/
theorem hexEncode_length (l : List Nat) : (hexEncode l).length = 2 * l.length := by
  induction l with
  | nil => rfl
  | cons b rest ih =>
    simp only [hexEncode, List.length_cons, ih]
    omega

/-- Every character a hex encoding produces is in the hex alphabet. -/
theorem hexEncode_chars {l : List Nat} (hb : ∀ b ∈ l, b < 256) :
    ∀ c ∈ hexEncode l, (48 ≤ c ∧ c ≤ 57) ∨ (97 ≤ c ∧ c ≤ 102) := by
  induction l with
  | nil => simp [hexEncode]
  | cons b rest ih =>
    have hblt : b < 256 := hb b (by simp)
    intro c hc
    simp only [hexEncode, List.mem_cons] at hc
    rcases hc with rfl | rfl | hc
    · exact hexDigitChar_range (by omega)
    · exact hexDigitChar_range (by omega)
    · exact ih (fun d hd => hb d (by simp [hd])) c hc

/-- The hex form of a value decodes back to the value: the leading `0x` is
trimmed once and the remaining characters decode pairwise. -/
theorem decodeHexString_hex {x : List Nat} (hb : ∀ b ∈ x, b < 256) :
    decodeHexString (mark0x ++ hexEncode x) = some x := by
  unfold decodeHexString trim0xMarkList
  have hm : has0xMark (mark0x ++ hexEncode x) = true := rfl
  rw [if_pos hm]
  have hdrop : (mark0x ++ hexEncode x).drop 2 = hexEncode x := rfl
  rw [hdrop]
  exact hexDecode_hexEncode hb

/-- C5. For every 32-byte value that passes a kind's validator, the
byte-constructor of the kind is a left inverse of `Bytes`, the hex
constructor is a left inverse of `Hex`, and converting through the generic
`Identifier` and back returns the value, for asset, participant and logic
identifiers alike. -/
theorem C5_roundtrip (x : List Nat) (hlen : x.length = 32) (hb : ∀ b ∈ x, b < 256) :
    (AssetID.Validate x = none →
      NewAssetIDFromBytes (AssetID.Bytes x) = (x, none) ∧
      NewAssetIDFromHex (AssetID.Hex x) = (x, none) ∧
      Identifier.AsAssetID (AssetID.AsIdentifier x) = (x, none)) ∧
    (ParticipantID.Validate x = none →
      NewParticipantIDFromBytes (ParticipantID.Bytes x) = (x, none) ∧
      NewParticipantIDFromHex (ParticipantID.Hex x) = (x, none) ∧
      Identifier.AsParticipantID (ParticipantID.AsIdentifier x) = (x, none)) ∧
    (LogicID.Validate x = none →
      NewLogicIDFromBytes (LogicID.Bytes x) = (x, none) ∧
      NewLogicIDFromHex (LogicID.Hex x) = (x, none) ∧
      Identifier.AsLogicID (LogicID.AsIdentifier x) = (x, none)) := by
  have hdec := decodeHexString_hex hb
  refine ⟨fun hval => ?_, fun hval => ?_, fun hval => ?_⟩
  · have hnew : NewAssetID x = (x, none) := by
      unfold NewAssetID
      rw [hval]
    have hfb : NewAssetIDFromBytes x = (x, none) := by
      unfold NewAssetIDFromBytes
      rw [if_neg (by omega)]
      exact hnew
    refine ⟨hfb, ?_, hnew⟩
    unfold AssetID.Hex
    simp only [NewAssetIDFromHex, hdec]
    exact hfb
  · have hnew : NewParticipantID x = (x, none) := by
      unfold NewParticipantID
      rw [hval]
    have hfb : NewParticipantIDFromBytes x = (x, none) := by
      unfold NewParticipantIDFromBytes
      rw [if_neg (by omega)]
      exact hnew
    refine ⟨hfb, ?_, hnew⟩
    unfold ParticipantID.Hex
    simp only [NewParticipantIDFromHex, hdec]
    exact hfb
  · have hnew : NewLogicID x = (x, none) := by
      unfold NewLogicID
      rw [hval]
    have hfb : NewLogicIDFromBytes x = (x, none) := by
      unfold NewLogicIDFromBytes
      rw [if_neg (by omega)]
      exact hnew
    refine ⟨hfb, ?_, hnew⟩
    unfold LogicID.Hex
    simp only [NewLogicIDFromHex, hdec]
    exact hfb

/-- C5 witness: the three round-trips at a concrete valid AssetID. -/
theorem C5_witness :
    NewAssetIDFromBytes (AssetID.Bytes sampleAssetId) = (sampleAssetId, none) ∧
    NewAssetIDFromHex (AssetID.Hex sampleAssetId) = (sampleAssetId, none) ∧
    Identifier.AsAssetID (AssetID.AsIdentifier sampleAssetId) = (sampleAssetId, none) :=
  (C5_roundtrip sampleAssetId (by decide) (by decide)).1 (by decide)

/-- C9. `marshal32` always succeeds, producing the two characters `0x`
followed by exactly 64 characters of the hex alphabet; `unmarshal32` fails
with the missing-hex-mark error whenever the `0x` mark is absent, and with
the invalid-length error whenever the mark is present but the remaining
data is not exactly 64 characters. -/
theorem C9_text_codec (id data : List Nat) (hlen : id.length = 32)
    (hb : ∀ b ∈ id, b < 256) :
    ((marshal32 id).2 = none ∧
      (marshal32 id).1 = 48 :: 120 :: hexEncode id ∧
      (hexEncode id).length = 64 ∧
      (∀ c ∈ hexEncode id, (48 ≤ c ∧ c ≤ 57) ∨ (97 ≤ c ∧ c ≤ 102))) ∧
    (has0xMark data = false → unmarshal32 data = some (Nil32, some .missingHexMark)) ∧
    (has0xMark data = true → (data.drop 2).length ≠ 64 →
      unmarshal32 data = some (Nil32, some .invalidLength)) := by
  refine ⟨⟨rfl, rfl, ?_, hexEncode_chars hb⟩, fun hm => ?_, fun hm hl => ?_⟩
  · rw [hexEncode_length, hlen]
  · unfold unmarshal32
    rw [if_pos (by simp [hm])]
  · unfold unmarshal32
    rw [if_neg (by simp [hm])]
    simp only [hl, if_true]
    rw [if_pos hl]

/-- C9 witness: marshalling a concrete identifier succeeds and the two
unmarshal failure modes occur at concrete inputs. -/
theorem C9_witness :
    (marshal32 sampleParticipantId).2 = none ∧
    unmarshal32 [49, 50] = some (Nil32, some .missingHexMark) ∧
    unmarshal32 [48, 120, 49, 50] = some (Nil32, some .invalidLength) :=
  ⟨(C9_text_codec sampleParticipantId [49, 50] (by decide) (by decide)).1.1,
   (C9_text_codec sampleParticipantId [49, 50] (by decide) (by decide)).2.1 (by decide),
   (C9_text_codec sampleParticipantId [48, 120, 49, 50] (by decide)
      (by decide)).2.2 (by decide) (by decide)⟩

/-- C6. Any 32-byte value whose tag byte is 0x00 (Participant kind 0,
version 0) and whose flags byte is 0b10000000 (only the Systemic bit)
passes `ParticipantID.Validate`, regardless of the remaining 30 bytes; the
same value with flags byte 0b11111111 fails with the malformed-flags
error. -/
theorem C6_participant_flag_boundary (id : List Nat) (hlen : id.length = 32)
    (htag : id.getD 0 0 = 0x00) :
    (id.getD 1 0 = 0b10000000 → ParticipantID.Validate id = none) ∧
    (id.getD 1 0 = 0b11111111 → ParticipantID.Validate id = some .malformedFlags) := by
  constructor <;> intro hf <;>
    (unfold ParticipantID.Validate
     rw [show Identifier.Tag id = 0 from htag, hf]
     decide)

/-- C6 witness: the boundary at two concrete participant identifiers. -/
theorem C6_witness :
    ParticipantID.Validate sampleParticipantId = none ∧
    ParticipantID.Validate badFlagsParticipantId = some .malformedFlags :=
  ⟨(C6_participant_flag_boundary sampleParticipantId (by decide) (by decide)).1 (by decide),
   (C6_participant_flag_boundary badFlagsParticipantId (by decide) (by decide)).2 (by decide)⟩

/-- C7. `Flag.Supports` is false when the tag's kind is absent from the
flag's support table, false when the table's entry exceeds the tag's
version, and true when the tag's version reaches the entry. -/
theorem C7_flag_supports (f : Flag) (t : Nat) :
    (f.support (IdentifierTag.Kind t) = none → Flag.Supports f t = false) ∧
    (∀ v, f.support (IdentifierTag.Kind t) = some v →
      (IdentifierTag.Version t < v → Flag.Supports f t = false) ∧
      (v ≤ IdentifierTag.Version t → Flag.Supports f t = true)) := by
  refine ⟨fun h => ?_, fun v h => ⟨fun hv => ?_, fun hv => ?_⟩⟩ <;>
    simp [Flag.Supports, h] <;> omega

/-- C7 witness: Systemic supports the asset v0 tag; AssetStateful does not
support the logic v0 tag. -/
theorem C7_witness :
    Flag.Supports Systemic 0x10 = true ∧ Flag.Supports AssetStateful 0x20 = false :=
  ⟨((C7_flag_supports Systemic 0x10).2 0 (by decide)).2 (by decide),
   (C7_flag_supports AssetStateful 0x20).1 (by decide)⟩

/-- C8 counterexample. The claim states the elementary bit read/write
helpers reject any index above 7 by failing fast; in fact `getFlag` and
`setFlag` perform no index check at all: at index 8 the byte-width shift
produces a zero mask, so `getFlag` quietly returns `false` and `setFlag`
quietly returns its input unchanged. Only `isBitSet` panics. -/
theorem C8_counterexample :
    getFlag 255 8 = false ∧ setFlag 0 8 true = 0 ∧ setFlag 255 8 false = 255 := by decide

/-- C8 amended: `isBitSet` panics for any index above 7, but `getFlag` and
`setFlag` accept any index: above 7 the byte-width shift mask is zero, so
`getFlag` returns `false` and `setFlag` returns the flags byte unchanged —
a silent no-op rather than a failure. -/
theorem C8_bit_index_range (value index : Nat) (hv : value < 256) (hi : index > 7) :
    isBitSet value index = none ∧ getFlag value index = false ∧
    setFlag value index true = value ∧ setFlag value index false = value := by
  have hm : (1 <<< index) % 256 = 0 := by
    rw [Nat.shiftLeft_eq, one_mul]
    have hdvd : (256 : Nat) ∣ 2 ^ index := by
      have := pow_dvd_pow 2 (show 8 ≤ index by omega)
      simpa using this
    omega
  refine ⟨by simp [isBitSet, hi], by simp [getFlag, hm], by simp [setFlag, hm], ?_⟩
  have h255 : value &&& 255 = value := by
    have := Nat.and_pow_two_sub_one_eq_mod value 8
    simpa [Nat.mod_eq_of_lt hv] using this
  simp [setFlag, hm, h255]

/-- C8 witness: the amended behaviour at the concrete byte 255, index 8. -/
theorem C8_witness :
    isBitSet 255 8 = none ∧ getFlag 255 8 = false ∧
    setFlag 255 8 true = 255 ∧ setFlag 255 8 false = 255 :=
  C8_bit_index_range 255 8 (by decide) (by decide)

/-- C10. `IdentifierTag.FlagMask` panics (modelled as `none`) on every tag
byte other than the three known v0 tags, and returns the precomputed
disallowed-bits mask for those three without panicking. -/
theorem C10_flagMask_partiality (t : Nat) :
    (t ≠ TagParticipantV0 → t ≠ TagAssetV0 → t ≠ TagLogicV0 →
      IdentifierTag.FlagMask t = none) ∧
    (IdentifierTag.FlagMask TagParticipantV0 = some 0b01111111 ∧
     IdentifierTag.FlagMask TagAssetV0 = some 0b01111100 ∧
     IdentifierTag.FlagMask TagLogicV0 = some 0b01111000) := by
  refine ⟨fun h1 h2 h3 => ?_, by decide, by decide, by decide⟩
  simp [IdentifierTag.FlagMask, flagMasks, h1, h2, h3]

/-- C10 witness: the tag byte 0x30 (kind 3, version 0) came from ordinary
data yet has no flag mask — the lookup would panic. -/
theorem C10_witness : IdentifierTag.FlagMask 0x30 = none :=
  (C10_flagMask_partiality 0x30).1 (by decide) (by decide) (by decide)

end GoMoiIdentifiers
